import Mathlib

/-!
Verification of the ats_OKX trading engine against its specification.

The Python sources are shallowly embedded over exact rationals (`ℚ`):
each Lean definition translates one source function, keeping its branch
structure and, where Lean allows, its name.  Python float arithmetic is
modelled by rational arithmetic; `round(x)` (resp. `round(x, 2)`) is
modelled by rounding to the nearest integer (resp. nearest hundredth) —
Python's ties-to-even and round-half-up differ only on exact ties, which
none of the statements below touch.  Python dictionaries are modelled by
association lists with first-match lookup and in-place upsert.
-/

namespace AtsOKX

/-- Nearest-integer rounding of a rational, as a rational
(models Python `round(x)` away from exact ties). -/
def roundQ (q : ℚ) : ℚ := ((round q : ℤ) : ℚ)

/-- Rounding to two decimal places (models Python `round(x, 2)` away from
exact ties). -/
def round2 (q : ℚ) : ℚ := ((round (q * 100) : ℤ) : ℚ) / 100

/-- First-match lookup in an association list (Python `dict.get`). -/
def alookup {α : Type} (l : List (String × α)) (k : String) : Option α :=
  match l with
  | [] => none
  | (k', v) :: rest => if k' = k then some v else alookup rest k

/-- In-place upsert into an association list
(Python `d[k] = v`: update the existing slot, else append). -/
def dinsert {α : Type} (l : List (String × α)) (k : String) (v : α) :
    List (String × α) :=
  match l with
  | [] => [(k, v)]
  | (k', v') :: rest =>
      if k' = k then (k, v) :: rest else (k', v') :: dinsert rest k v

/-- Remove the first entry with the given key from an association list
(a proof device: the complement of one `alookup` hit). -/
def derase {α : Type} (l : List (String × α)) (k : String) :
    List (String × α) :=
  match l with
  | [] => []
  | e :: rest => if e.1 = k then rest else e :: derase rest k

/-! ## Scoring engine (`engine/layer3_strategy/multi_factor_scoring.py`) -/

/-- `multi_factor_scoring._clamp`: limit a value to `[lo, hi]`
(defaults `0`, `100`). -/
def _clamp (value : ℚ) (lo : ℚ := 0) (hi : ℚ := 100) : ℚ :=
  max lo (min hi value)

/-- One row of a factor's detail list (`FactorDetail`). -/
structure FactorDetail where
  name : String
  raw_value : ℚ
  contribution : ℚ
  deriving DecidableEq, Repr

/-- The indicator row consumed by `_calc_technical_score`,
`_calc_momentum_score` and `_calc_volume_score`.  Each field is optional,
mirroring `ind.get(key, default)` on the Python dict; the `get` defaults
are applied inside each scoring function, as in the source. -/
structure Indicators where
  rsi_14 : Option ℚ := none
  macd_histogram : Option ℚ := none
  macd_signal : Option ℚ := none
  current_price : Option ℚ := none
  bollinger_lower : Option ℚ := none
  bollinger_upper : Option ℚ := none
  sma_5 : Option ℚ := none
  sma_20 : Option ℚ := none
  sma_60 : Option ℚ := none
  ema_12 : Option ℚ := none
  ema_26 : Option ℚ := none
  adx : Option ℚ := none
  open_price : Option ℚ := none
  stoch_k : Option ℚ := none
  stoch_d : Option ℚ := none
  roc_12 : Option ℚ := none
  cci_20 : Option ℚ := none
  volume_ratio : Option ℚ := none
  obv_trend : Option String := none
  vwap : Option ℚ := none

/-- The volatility row consumed by `_calc_volatility_score`. -/
structure VolatilityData where
  volatility_regime : Option String := none
  atr_percent : Option ℚ := none
  bb_width : Option ℚ := none

/-- The sentiment row consumed by `_calc_sentiment_score`. -/
structure SentimentData where
  fear_greed_index : Option ℚ := none
  news_sentiment : Option ℚ := none
  social_volume_change : Option ℚ := none

/-- `MultiFactorScoring._calc_technical_score`: technical-factor score.
Returns the clamped score together with the detail list (the detail rows
are built in source order; the human-readable Korean names are kept). -/
def _calc_technical_score (ind : Indicators) : ℚ × List FactorDetail :=
  -- RSI (14)
  let rsi := ind.rsi_14.getD 50
  let rsi_contrib : ℚ :=
    if rsi < 20 then 30
    else if rsi < 30 then 20
    else if rsi < 40 then 10
    else if rsi > 85 then -30
    else if rsi > 75 then -20
    else if rsi > 65 then -5
    else 0
  let rsiDetail : FactorDetail := ⟨"RSI(14)", round2 rsi, rsi_contrib⟩
  -- MACD histogram
  let macd_hist := ind.macd_histogram.getD 0
  let macd_signal := ind.macd_signal.getD 0
  let macd_contrib : ℚ :=
    if macd_hist > 0 ∧ macd_signal < 0 then 15
    else if macd_hist > 0 then 8
    else if macd_hist < 0 ∧ macd_signal > 0 then -12
    else if macd_hist < 0 then -5
    else 0
  let macdDetail : FactorDetail := ⟨"MACD 히스토그램", round2 macd_hist, macd_contrib⟩
  -- Bollinger-band position (both source branches append exactly one row)
  let close := ind.current_price.getD 0
  let bb_lower := ind.bollinger_lower.getD 0
  let bb_upper := ind.bollinger_upper.getD 0
  let bbPair : ℚ × FactorDetail :=
    if bb_upper > bb_lower ∧ bb_lower > 0 ∧ close > 0 then
      let bb_position := (close - bb_lower) / (bb_upper - bb_lower)
      let bb_contrib : ℚ :=
        if bb_position < 1/10 then 20
        else if bb_position < 1/4 then 12
        else if bb_position > 9/10 then -15
        else if bb_position > 3/4 then -8
        else 0
      (bb_contrib, ⟨"볼린저밴드 위치", round2 bb_position, bb_contrib⟩)
    else (0, ⟨"볼린저밴드 위치", 0, 0⟩)
  -- SMA 5/20/60 alignment
  let sma5 := ind.sma_5.getD 0
  let sma20 := ind.sma_20.getD 0
  let sma60 := ind.sma_60.getD 0
  let ma_contrib : ℚ :=
    if sma5 > 0 ∧ sma20 > 0 ∧ sma60 > 0 then
      if sma5 > sma20 ∧ sma20 > sma60 then 12
      else if sma5 > sma20 then 5
      else if sma5 < sma20 ∧ sma20 < sma60 then -12
      else if sma5 < sma20 then -5
      else 0
    else 0
  let maDetail : FactorDetail := ⟨"이동평균 배열", 0, ma_contrib⟩
  -- EMA cross (12/26)
  let ema12 := ind.ema_12.getD 0
  let ema26 := ind.ema_26.getD 0
  let ema_contrib : ℚ :=
    if ema12 > 0 ∧ ema26 > 0 then
      let ema_diff_pct := (ema12 - ema26) / ema26 * 100
      if ema_diff_pct > 1 then 5
      else if ema_diff_pct < -1 then -5
      else 0
    else 0
  let emaDetail : FactorDetail := ⟨"EMA(12/26)", round2 ema_contrib, ema_contrib⟩
  -- ADX (trend strength)
  let adx := ind.adx.getD 20
  let adx_contrib : ℚ := if adx > 40 then 5 else if adx < 15 then -3 else 0
  let adxDetail : FactorDetail := ⟨"ADX", round2 adx, adx_contrib⟩
  let score : ℚ := 50 + rsi_contrib + macd_contrib + bbPair.1
      + ma_contrib + ema_contrib + adx_contrib
  (_clamp score, [rsiDetail, macdDetail, bbPair.2, maDetail, emaDetail, adxDetail])

/-- `MultiFactorScoring._calc_momentum_score`: momentum-factor score.
The price-gap detail row is appended only when `open_price > 0`, as in
the source. -/
def _calc_momentum_score (ind : Indicators) : ℚ × List FactorDetail :=
  -- price gap from the open
  let current := ind.current_price.getD 0
  let open_price := ind.open_price.getD current
  let gapPair : ℚ × List FactorDetail :=
    if open_price > 0 then
      let gap_pct := (current - open_price) / open_price * 100
      let gap_contrib : ℚ :=
        if -5 < gap_pct ∧ gap_pct ≤ -3 then 15
        else if -3 < gap_pct ∧ gap_pct ≤ -(1/2) then 20
        else if -10 < gap_pct ∧ gap_pct ≤ -5 then 5
        else if gap_pct ≤ -10 then -15
        else if 0 < gap_pct ∧ gap_pct ≤ 2 then 5
        else if 2 < gap_pct ∧ gap_pct ≤ 5 then -3
        else if gap_pct > 5 then -10
        else 0
      (gap_contrib, [⟨"가격 이격도", round2 gap_pct, gap_contrib⟩])
    else (0, [])
  -- stochastic K (plus K/D cross bonus)
  let stoch_k := ind.stoch_k.getD 50
  let stoch_d := ind.stoch_d.getD 50
  let stoch_base : ℚ :=
    if stoch_k < 15 then 20
    else if stoch_k < 25 then 12
    else if stoch_k > 85 then -15
    else if stoch_k > 75 then -8
    else 0
  let stoch_contrib : ℚ :=
    stoch_base + (if stoch_k > stoch_d ∧ stoch_k < 30 then 5 else 0)
  let stochDetail : FactorDetail := ⟨"스토캐스틱 K", round2 stoch_k, stoch_contrib⟩
  -- ROC (12)
  let roc := ind.roc_12.getD 0
  let roc_contrib : ℚ :=
    if roc < -5 then 10
    else if roc > 10 then -5
    else if 0 < roc ∧ roc ≤ 5 then 5
    else 0
  let rocDetail : FactorDetail := ⟨"ROC(12)", round2 roc, roc_contrib⟩
  -- CCI (20)
  let cci := ind.cci_20.getD 0
  let cci_contrib : ℚ :=
    if cci < -200 then 15
    else if cci < -100 then 8
    else if cci > 200 then -12
    else if cci > 100 then -5
    else 0
  let cciDetail : FactorDetail := ⟨"CCI(20)", round2 cci, cci_contrib⟩
  let score : ℚ := 50 + gapPair.1 + stoch_contrib + roc_contrib + cci_contrib
  (_clamp score, gapPair.2 ++ [stochDetail, rocDetail, cciDetail])

/-- `MultiFactorScoring._calc_volatility_score`: volatility-factor score.
A missing volatility row yields the neutral score `50`. -/
def _calc_volatility_score (vol : Option VolatilityData) : ℚ × List FactorDetail :=
  match vol with
  | none => (50, [⟨"변동성 데이터", 0, 0⟩])
  | some v =>
      let regime := v.volatility_regime.getD "MEDIUM"
      let regime_contrib : ℚ :=
        if regime = "LOW" then -10
        else if regime = "MEDIUM" then 25
        else if regime = "HIGH" then 5
        else if regime = "EXTREME" then -20
        else 0
      let regimeDetail : FactorDetail := ⟨"변동성 레짐", 0, regime_contrib⟩
      let atr_pct := v.atr_percent.getD 2
      let atr_contrib : ℚ :=
        if 1 ≤ atr_pct ∧ atr_pct ≤ 3 then 10
        else if 3 < atr_pct ∧ atr_pct ≤ 5 then 0
        else if atr_pct > 5 then -10
        else if atr_pct < 1/2 then -5
        else 0
      let atrDetail : FactorDetail := ⟨"ATR %", round2 atr_pct, atr_contrib⟩
      let bb_width := v.bb_width.getD 0
      let bbw_contrib : ℚ :=
        if 1/50 < bb_width ∧ bb_width < 3/50 then 5
        else if bb_width ≥ 1/10 then -5
        else if bb_width ≤ 1/100 then -3
        else 0
      let bbwDetail : FactorDetail := ⟨"볼린저 폭", round2 bb_width, bbw_contrib⟩
      let score : ℚ := 50 + regime_contrib + atr_contrib + bbw_contrib
      (_clamp score, [regimeDetail, atrDetail, bbwDetail])

/-- `MultiFactorScoring._calc_volume_score`: volume-factor score.
The VWAP detail row is appended only when both `vwap` and the current
price are positive, as in the source. -/
def _calc_volume_score (ind : Indicators) : ℚ × List FactorDetail :=
  let volume_ratio := ind.volume_ratio.getD 1
  let vr_contrib : ℚ :=
    if volume_ratio > 5 then 30
    else if volume_ratio > 3 then 22
    else if volume_ratio > 2 then 15
    else if volume_ratio > 3/2 then 10
    else if volume_ratio > 1 then 3
    else if volume_ratio < 3/10 then -20
    else if volume_ratio < 1/2 then -12
    else if volume_ratio < 7/10 then -5
    else 0
  let vrDetail : FactorDetail := ⟨"거래량 비율", round2 volume_ratio, vr_contrib⟩
  let obv_trend := ind.obv_trend.getD "NEUTRAL"
  let obv_contrib : ℚ :=
    if obv_trend = "RISING" then 10
    else if obv_trend = "FALLING" then -8
    else 0
  let obvDetail : FactorDetail := ⟨"OBV 추세", 0, obv_contrib⟩
  let vwap := ind.vwap.getD 0
  let close := ind.current_price.getD 0
  let vwapPair : ℚ × List FactorDetail :=
    if vwap > 0 ∧ close > 0 then
      let vwap_pct := (close - vwap) / vwap * 100
      let vwap_contrib : ℚ :=
        if vwap_pct < -2 then 8 else if vwap_pct > 3 then -5 else 0
      (vwap_contrib, [⟨"VWAP 이격", round2 vwap_pct, vwap_contrib⟩])
    else (0, [])
  let score : ℚ := 50 + vr_contrib + obv_contrib + vwapPair.1
  (_clamp score, [vrDetail, obvDetail] ++ vwapPair.2)

/-- `MultiFactorScoring._calc_sentiment_score`: sentiment-factor score.
A missing sentiment row yields the neutral score `50`. -/
def _calc_sentiment_score (sentiment : Option SentimentData) : ℚ × List FactorDetail :=
  match sentiment with
  | none => (50, [⟨"감성 데이터", 0, 0⟩])
  | some s =>
      let fear_greed := s.fear_greed_index.getD 50
      let fg_contrib : ℚ :=
        if fear_greed < 15 then 30
        else if fear_greed < 25 then 20
        else if fear_greed < 35 then 10
        else if fear_greed > 85 then -25
        else if fear_greed > 75 then -15
        else if fear_greed > 65 then -8
        else 0
      let fgDetail : FactorDetail := ⟨"공포/탐욕 지수", fear_greed, fg_contrib⟩
      let news_sentiment := s.news_sentiment.getD 0
      let news_contrib : ℚ :=
        if news_sentiment > 1/2 then 8
        else if news_sentiment > 1/5 then 4
        else if news_sentiment < -(1/2) then -8
        else if news_sentiment < -(1/5) then -4
        else 0
      let newsDetail : FactorDetail := ⟨"뉴스 감성", round2 news_sentiment, news_contrib⟩
      let social_volume := s.social_volume_change.getD 0
      let social_contrib : ℚ :=
        if social_volume > 100 then 5
        else if social_volume < -50 then -3
        else 0
      let socialDetail : FactorDetail :=
        ⟨"소셜 언급 변화율", ((round (social_volume * 10) : ℤ) : ℚ) / 10, social_contrib⟩
      let score : ℚ := 50 + fg_contrib + news_contrib + social_contrib
      (_clamp score, [fgDetail, newsDetail, socialDetail])

/-- Signal thresholds of the scoring engine (constructor parameters of
`MultiFactorScoring`; defaults `70 / 80 / 30`). -/
structure ScoringThresholds where
  buy_threshold : ℚ := 70
  strong_buy_threshold : ℚ := 80
  sell_threshold : ℚ := 30

/-- `MultiFactorScoring._determine_signal`: map a total score to a
signal label. -/
def _determine_signal (cfg : ScoringThresholds) (total_score : ℚ) : String :=
  if total_score ≥ cfg.strong_buy_threshold then "STRONG_BUY"
  else if total_score ≥ cfg.buy_threshold then "BUY"
  else if total_score ≤ cfg.sell_threshold then "SELL"
  else "HOLD"

/-- Factor weights of the scoring engine (`MultiFactorScoring.weights`,
defaults `DEFAULT_WEIGHTS`). -/
structure ScoringWeights where
  technical : ℚ := 3/10
  momentum : ℚ := 1/4
  volatility : ℚ := 3/20
  volume : ℚ := 3/20
  sentiment : ℚ := 3/20

/-- The numeric fields of a `ScoringResult` (its rationale string,
detail map and timestamp are carried separately / not modelled). -/
structure ScoringResultNums where
  technical_score : ℚ
  momentum_score : ℚ
  volatility_score : ℚ
  volume_score : ℚ
  sentiment_score : ℚ
  total_score : ℚ
  signal : String
  deriving DecidableEq, Repr

/-- `MultiFactorScoring.score_coin`, numeric core: computes the five
factor sub-scores, the clamped weighted total and the signal.  The DB
reads are abstracted into the three inputs; persisting the result, the
confidence, rationale and detail map are outside this embedding. -/
def score_coin (w : ScoringWeights) (cfg : ScoringThresholds)
    (ind : Indicators) (vol : Option VolatilityData)
    (sent : Option SentimentData) : ScoringResultNums :=
  let tech := (_calc_technical_score ind).1
  let momentum := (_calc_momentum_score ind).1
  let volS := (_calc_volatility_score vol).1
  let volume := (_calc_volume_score ind).1
  let sentS := (_calc_sentiment_score sent).1
  let total := _clamp (w.technical * tech + w.momentum * momentum
      + w.volatility * volS + w.volume * volume + w.sentiment * sentS)
  { technical_score := round2 tech
    momentum_score := round2 momentum
    volatility_score := round2 volS
    volume_score := round2 volume
    sentiment_score := round2 sentS
    total_score := round2 total
    signal := _determine_signal cfg total }

/-! ## Risk manager (`engine/layer4_execution/risk_manager.py`) -/

/-- `risk_manager.RiskAction` (the numeric and categorical fields; the
formatted `reason` text is not modelled). -/
structure RiskAction where
  symbol : String
  action : String
  pnl_pct : ℚ
  pnl_krw : ℚ
  urgency : ℤ
  deriving DecidableEq, Repr

/-- Constructor parameters of `RiskManager` (defaults as in the source). -/
structure RiskConfig where
  stop_loss_pct : ℚ := -3
  take_profit_pct : ℚ := 5
  trailing_stop_pct : ℚ := 2
  max_hold_hours : ℚ := 72
  daily_loss_limit_pct : ℚ := -5

/-- One open-position row as consumed by `RiskManager`.
`highest_price` mirrors `pos.get("highest_price", current_price)`;
`opened_hours_ago` is `datetime.now() - opened_at` in hours, `none` when
`opened_at` is absent or unparseable. -/
structure RMPosition where
  symbol : String
  avg_buy_price : ℚ
  volume : ℚ
  opened_hours_ago : Option ℚ := none
  highest_price : Option ℚ := none

/-- `RiskManager._evaluate_position`: evaluate a single position against
the current price, first match wins. -/
def _evaluate_position (rm : RiskConfig) (pos : RMPosition)
    (current_price : ℚ) : RiskAction :=
  if pos.avg_buy_price ≤ 0 then
    ⟨pos.symbol, "HOLD", 0, 0, 1⟩
  else
    let pnl_pct := (current_price - pos.avg_buy_price) / pos.avg_buy_price * 100
    let pnl_krw := (current_price - pos.avg_buy_price) * pos.volume
    if pnl_pct ≤ rm.stop_loss_pct then
      ⟨pos.symbol, "STOP_LOSS", pnl_pct, pnl_krw, 3⟩
    else if pnl_pct ≥ rm.take_profit_pct then
      ⟨pos.symbol, "TAKE_PROFIT", pnl_pct, pnl_krw, 2⟩
    else
      let highest := pos.highest_price.getD current_price
      if highest > pos.avg_buy_price
          ∧ (highest - current_price) / highest * 100 ≥ rm.trailing_stop_pct
          ∧ pnl_pct > 0 then
        ⟨pos.symbol, "TRAILING_STOP", pnl_pct, pnl_krw, 2⟩
      else
        match pos.opened_hours_ago with
        | some h =>
            if h > rm.max_hold_hours then
              ⟨pos.symbol, "MAX_HOLD", pnl_pct, pnl_krw, 1⟩
            else ⟨pos.symbol, "HOLD", pnl_pct, pnl_krw, 1⟩
        | none => ⟨pos.symbol, "HOLD", pnl_pct, pnl_krw, 1⟩

/-- `RiskManager.check_positions`: walk the position list; a position
whose symbol has no entry in `current_prices`, or whose price is `0`
(Python falsiness of the looked-up float), is skipped with a warning;
every other position yields exactly one `RiskAction`. -/
def check_positions (rm : RiskConfig) (positions : List RMPosition)
    (current_prices : List (String × ℚ)) : List RiskAction :=
  match positions with
  | [] => []
  | pos :: rest =>
      match alookup current_prices pos.symbol with
      | none => check_positions rm rest current_prices
      | some price =>
          if price = 0 then check_positions rm rest current_prices
          else _evaluate_position rm pos price
              :: check_positions rm rest current_prices

/-- `RiskManager.check_daily_loss`: `True` when the realized daily PnL
ratio breaches the (negative) daily loss limit. -/
def check_daily_loss (rm : RiskConfig) (daily_pnl_krw : ℚ)
    (total_portfolio_krw : ℚ) : Bool :=
  if total_portfolio_krw ≤ 0 then false
  else decide (daily_pnl_krw / total_portfolio_krw * 100 ≤ rm.daily_loss_limit_pct)

/-! ## Portfolio allocator (`engine/layer3_strategy/portfolio_allocator.py`) -/

/-- `portfolio_allocator.Allocation`.  `allocation_amount` and
`limit_price` hold the *rounded* values stored by the source
(`round(amount)`, `round(limit_price)`); `target_quantity` is computed
from the unrounded limit price, as in the source. -/
structure Allocation where
  symbol : String
  score : ℚ
  signal : String
  weight : ℚ
  allocation_amount : ℚ
  limit_price : ℚ
  target_quantity : ℚ
  deriving DecidableEq, Repr

/-- Constructor parameters of `PortfolioAllocator` (source defaults). -/
structure AllocConfig where
  min_allocation_pct : ℚ := 1/10
  max_allocation_pct : ℚ := 1/2
  strong_buy_boost : ℚ := 3/2
  limit_discount_pct : ℚ := 3/1000
  min_order_krw : ℚ := 5000
  reserve_ratio : ℚ := 1/10

/-- The fields of a scoring candidate that `allocate` reads. -/
structure Candidate where
  symbol : String
  total_score : ℚ
  signal : String

/-- Step 1 of `PortfolioAllocator.allocate`: the `raw_weights` dict,
built by iterating the candidates and upserting
`score × (boost when STRONG_BUY)` for each candidate that has a current
price (a duplicate symbol overwrites its earlier slot, as a dict does). -/
def raw_weights (cfg : AllocConfig) (candidates : List Candidate)
    (current_prices : List (String × ℚ)) : List (String × ℚ) :=
  candidates.foldl (fun acc c =>
    match alookup current_prices c.symbol with
    | none => acc
    | some _ =>
        let weight := if c.signal = "STRONG_BUY"
          then c.total_score * cfg.strong_buy_boost else c.total_score
        dinsert acc c.symbol weight) []

/-- Step 2 of `PortfolioAllocator.allocate`: divide every raw weight by
the raw total. -/
def normalized_weights (raw : List (String × ℚ)) : List (String × ℚ) :=
  raw.map (fun e => (e.1, e.2 / (raw.map (·.2)).sum))

/-- Step 3a of `PortfolioAllocator.allocate`: clamp every weight into
`[min_allocation_pct, max_allocation_pct]`. -/
def clamp_pct (cfg : AllocConfig) (l : List (String × ℚ)) :
    List (String × ℚ) :=
  l.map (fun e =>
    (e.1, max cfg.min_allocation_pct (min cfg.max_allocation_pct e.2)))

/-- Step 3b of `PortfolioAllocator.allocate`: renormalize when the
clamped total is positive. -/
def renormalize (l : List (String × ℚ)) : List (String × ℚ) :=
  if (l.map (·.2)).sum > 0
    then l.map (fun e => (e.1, e.2 / (l.map (·.2)).sum))
  else l

/-- Steps 2–3 of `PortfolioAllocator.allocate`: normalize the raw
weights to sum `1`, clamp each into
`[min_allocation_pct, max_allocation_pct]`, and renormalize when the
clamped sum is positive. -/
def clamped_weights (cfg : AllocConfig) (raw : List (String × ℚ)) :
    List (String × ℚ) :=
  renormalize (clamp_pct cfg (normalized_weights raw))

/-- Step 4 of `PortfolioAllocator.allocate`, for one candidate: its
allocation when its symbol survived the weighting (it had a price) and
its amount clears the minimum order, else `none`.  The inner price
lookup mirrors `current_prices[symbol]` (it always succeeds here, since
only priced symbols enter the weight dict). -/
def alloc_entry (cfg : AllocConfig) (investable : ℚ)
    (clamped : List (String × ℚ)) (current_prices : List (String × ℚ))
    (c : Candidate) : Option Allocation :=
  match alookup clamped c.symbol with
  | none => none
  | some weight =>
      let amount := investable * weight
      if amount < cfg.min_order_krw then none
      else
        match alookup current_prices c.symbol with
        | none => none
        | some current_price =>
            let limit_price := current_price * (1 - cfg.limit_discount_pct)
            some { symbol := c.symbol
                   score := c.total_score
                   signal := c.signal
                   weight := weight
                   allocation_amount := roundQ amount
                   limit_price := roundQ limit_price
                   target_quantity := amount / limit_price }

/-- `PortfolioAllocator.allocate`: returns the allocation list, sorted
by `allocation_amount` descending (the source's stable `list.sort` with
`reverse=True` is modelled by a stable merge sort on `≥`). -/
def allocate (cfg : AllocConfig) (available_krw : ℚ)
    (candidates : List Candidate) (current_prices : List (String × ℚ)) :
    List Allocation :=
  if candidates.isEmpty then []
  else
    let investable := available_krw * (1 - cfg.reserve_ratio)
    if investable < cfg.min_order_krw then []
    else
      let raw := raw_weights cfg candidates current_prices
      if raw = [] then []
      else
        let clamped := clamped_weights cfg raw
        let allocations :=
          candidates.filterMap (alloc_entry cfg investable clamped current_prices)
        allocations.mergeSort (fun a b => b.allocation_amount ≤ a.allocation_amount)

/-! ## Exit-signal cascade (`src/core/signal_engine.py`) -/

/-- The fields of `signal_engine.Signal` that `check_exit_signal` sets
(identifying strings and timestamps aside). -/
structure ExitSignal where
  signal_type : String
  reason : String
  quantity_pct : ℚ
  deriving DecidableEq, Repr

/-- The data `SignalEngine.check_exit_signal` reads: the latest close of
the main dataframe, the position record, the rolling 10-bar extrema, the
latest `ema_cross` value and the elapsed holding time. -/
structure ExitInput where
  close : ℚ
  entry_price : ℚ
  position_side : String := "long"
  tp_stage : ℤ := 0            -- position["tp_stage_hit"]
  peak_price : ℚ
  recent_low : ℚ               -- df_main["low"].iloc[-10:].min()
  recent_high : ℚ              -- df_main["high"].iloc[-10:].max()
  ema_cross : ℤ := 0
  hold_minutes : ℚ := 0
  max_hold : ℚ := 60

/-- The unrealized PnL fraction `check_exit_signal` computes:
`(close − entry) / entry` for a long, mirrored for a short. -/
def exit_pnl_pct (i : ExitInput) : ℚ :=
  if i.position_side = "long"
    then (i.close - i.entry_price) / i.entry_price
    else (i.entry_price - i.close) / i.entry_price

/-- `SignalEngine.check_exit_signal`: the exit cascade — fixed stop,
dynamic 10-bar stop (capped at ±2 %), the three take-profit tiers,
trailing stop (active from tp-stage 1), EMA-cross exit while under
water, and the max-hold time exit; otherwise hold.  `quantity_pct`
defaults to `1` as in the `Signal` dataclass. -/
def check_exit_signal (i : ExitInput) : ExitSignal :=
  let pnl_pct := exit_pnl_pct i
  let peak_price := if i.position_side = "long"
    then (if i.close > i.peak_price then i.close else i.peak_price)
    else (if i.close < i.peak_price then i.close else i.peak_price)
  -- 1-1. fixed stop loss (1.0 %)
  if pnl_pct ≤ -(1/100) then ⟨"exit", "SL", 1⟩
  -- 1-2. dynamic stop (10 bars, capped at 2.0 %)
  else if i.position_side = "long"
      ∧ i.close < max i.recent_low (i.entry_price * (98/100)) then
    ⟨"exit", "SL", 1⟩
  else if ¬(i.position_side = "long")
      ∧ i.close > min i.recent_high (i.entry_price * (102/100)) then
    ⟨"exit", "SL", 1⟩
  -- 2. take-profit tiers: TP1 +0.8 % (30 %), TP2 +1.5 % (30 %), TP3 +2.5 % (all)
  else if i.tp_stage < 1 ∧ pnl_pct ≥ 8/1000 then ⟨"exit", "TP1", 3/10⟩
  else if i.tp_stage < 2 ∧ pnl_pct ≥ 15/1000 then ⟨"exit", "TP2", 3/10⟩
  else if pnl_pct ≥ 25/1000 then ⟨"exit", "TP3", 1⟩
  -- 3. trailing stop (active once tp_stage ≥ 1, 0.4 % pullback from the peak)
  else if i.tp_stage ≥ 1
      ∧ (if i.position_side = "long"
         then (peak_price - i.close) / peak_price
         else (i.close - peak_price) / peak_price) ≥ 4/1000 then
    ⟨"exit", "Trailing", 1⟩
  -- 4. EMA-cross exit (only while at an unrealized loss)
  else if pnl_pct < 0 ∧ i.position_side = "long" ∧ i.ema_cross = -1 then
    ⟨"exit", "EMA", 1⟩
  else if pnl_pct < 0 ∧ ¬(i.position_side = "long") ∧ i.ema_cross = 1 then
    ⟨"exit", "EMA", 1⟩
  -- 5. time exit (past max_hold minutes, only when not in profit)
  else if i.hold_minutes ≥ i.max_hold ∧ ¬(pnl_pct > 0) then
    ⟨"exit", "Time", 1⟩
  else ⟨"hold", "보유 유지", 1⟩

/-- A concrete exit-check input: a long opened at 100 with the close at
103 (PnL +3 %), the 10-bar low at 101 (no stop fires), at the given
take-profit stage. -/
def exit_input_at (stage : ℤ) : ExitInput where
  close := 103
  entry_price := 100
  position_side := "long"
  tp_stage := stage
  peak_price := 103
  recent_low := 101
  recent_high := 0

/-! ## Paper order executor (`src/core/order_executor.py`) -/

/-- The simulated wallet (`OrderExecutor._paper_balance_usdt` and
`OrderExecutor._paper_holdings`).  Holdings map a base currency (or a
`SHORT_`-prefixed key) to a quantity. -/
structure PaperState where
  balance_usdt : ℚ
  holdings : List (String × ℚ)
  deriving DecidableEq, Repr

/-- The executor parameters `_paper_open_long` reads
(`fee_rate`, `leverage`). -/
structure ExecConfig where
  fee_rate : ℚ := 1/1000
  leverage : ℤ := 1

/-- The fields of the fill dict a paper operation returns
(identifiers, timestamps and mode label aside). -/
structure PaperFill where
  price : ℚ
  quantity : ℚ
  amount_usdt : ℚ
  fee_usdt : ℚ
  deriving DecidableEq, Repr

/-- `OrderExecutor._paper_open_long`: the ticker fetch is abstracted
into the `price` argument (`None` when unavailable is outside this
embedding); `base` is `pair.split("/")[0]`, passed directly.  Rejects
(`none`) when `margin + fee > balance`; on success only the fee leaves
the wallet and the holdings slot for `base` is credited with
`amount_usdt / price`. -/
def _paper_open_long (cfg : ExecConfig) (st : PaperState) (base : String)
    (amount_usdt : ℚ) (price : ℚ) : Option (PaperState × PaperFill) :=
  let margin := if cfg.leverage > 0 then amount_usdt / cfg.leverage else amount_usdt
  let fee := amount_usdt * cfg.fee_rate
  let quantity := amount_usdt / price
  if margin + fee > st.balance_usdt then none
  else
    let holdings := dinsert st.holdings base
      ((alookup st.holdings base).getD 0 + quantity)
    some ({ balance_usdt := st.balance_usdt - fee, holdings := holdings },
          { price := price, quantity := quantity,
            amount_usdt := amount_usdt, fee_usdt := fee })

/-- `OrderExecutor._paper_open_short`: identical wallet arithmetic,
crediting the `SHORT_`-prefixed holdings key. -/
def _paper_open_short (cfg : ExecConfig) (st : PaperState) (base : String)
    (amount_usdt : ℚ) (price : ℚ) : Option (PaperState × PaperFill) :=
  let margin := if cfg.leverage > 0 then amount_usdt / cfg.leverage else amount_usdt
  let fee := amount_usdt * cfg.fee_rate
  let quantity := amount_usdt / price
  if margin + fee > st.balance_usdt then none
  else
    let short_key := "SHORT_" ++ base
    let holdings := dinsert st.holdings short_key
      ((alookup st.holdings short_key).getD 0 + quantity)
    some ({ balance_usdt := st.balance_usdt - fee, holdings := holdings },
          { price := price, quantity := quantity,
            amount_usdt := amount_usdt, fee_usdt := fee })

/-- `OrderExecutor._paper_close`: the holdings slot is decremented by
the closed quantity but clamped at `0` (`max(0, held - quantity)`); only
the fee is deducted from the wallet (realized PnL is booked separately
by `add_paper_pnl`).  `key` is the base currency, `SHORT_`-prefixed for
a short position. -/
def _paper_close (cfg : ExecConfig) (st : PaperState) (base : String)
    (position_side : String) (quantity : ℚ) (price : ℚ) :
    PaperState × PaperFill :=
  let amount_usdt := quantity * price
  let fee := amount_usdt * cfg.fee_rate
  let key := if position_side = "long" then base else "SHORT_" ++ base
  let holdings := dinsert st.holdings key
    (max 0 ((alookup st.holdings key).getD 0 - quantity))
  ({ balance_usdt := st.balance_usdt - fee, holdings := holdings },
   { price := price, quantity := quantity,
     amount_usdt := amount_usdt, fee_usdt := fee })

/-- `OrderExecutor.add_paper_pnl`: book realized PnL into the wallet. -/
def add_paper_pnl (st : PaperState) (pnl_usdt : ℚ) : PaperState :=
  { st with balance_usdt := st.balance_usdt + pnl_usdt }

/-- `OrderExecutor._load_paper_state`: rebuild the wallet from the raw
snapshot `{usdt, holdings}`.  Entries whose quantity does not parse are
dropped (abstracted away here: the input is already numeric); only
strictly positive quantities are kept, and the cash balance is clamped
at `0`. -/
def _load_paper_state (usdt : ℚ) (holdings_raw : List (String × ℚ)) :
    PaperState :=
  { balance_usdt := max 0 usdt
    holdings := holdings_raw.filter (fun e => e.2 > 0) }

/-! ## Reconciler (`src/main.py`, `_sync_with_exchange`) -/

/-- One normalized exchange position, as returned by
`OrderExecutor.get_all_positions_standardized`. -/
structure ExchangePos where
  pair : String
  side : String
  qty : ℚ
  deriving DecidableEq, Repr

/-- A market-close order issued by the reconciler
(`order_executor.close_position(pair, qty, side)`). -/
structure CloseOrder where
  pair : String
  qty : ℚ
  side : String
  deriving DecidableEq, Repr

/-- `_sync_with_exchange`: the tracker is modelled as an association
list `pair ↦ position_side` (the only field the sync reads).  Pass 1
evicts every tracker pair without a same-pair, same-side exchange
position; pass 2 walks the exchange list against the pass-1 *snapshot*
(`get_all_positions` returns a copy) and issues a market-close for every
exchange position whose pair is untracked or tracked with the opposite
side.  Returns the new tracker and the close orders, in order. -/
def sync_with_exchange (db_positions : List (String × String))
    (exchange_positions : List ExchangePos) :
    List (String × String) × List CloseOrder :=
  let new_db := db_positions.filter (fun e =>
    exchange_positions.any (fun p => p.pair = e.1 ∧ p.side = e.2))
  let closes := exchange_positions.filterMap (fun p =>
    match alookup db_positions p.pair with
    | none => some ⟨p.pair, p.qty, p.side⟩
    | some side =>
        if side ≠ p.side then some ⟨p.pair, p.qty, p.side⟩ else none)
  (new_db, closes)

/-! ## Supporting lemmas -/

theorem _clamp_nonneg (v : ℚ) : 0 ≤ _clamp v :=
  le_max_left 0 _

theorem _clamp_le_hundred (v : ℚ) : _clamp v ≤ 100 :=
  max_le (by norm_num) (min_le_left _ _)

theorem round2_mono {a b : ℚ} (h : a ≤ b) : round2 a ≤ round2 b := by
  unfold round2
  have hr : round (a * 100) ≤ round (b * 100) := by
    rw [round_eq, round_eq]
    exact Int.floor_le_floor (by linarith)
  exact (div_le_div_iff_of_pos_right (by norm_num)).mpr (by exact_mod_cast hr)

theorem round2_zero : round2 0 = 0 := by
  norm_num [round2]

theorem round2_hundred : round2 100 = 100 := by
  norm_num [round2, round_eq]

theorem round2_bounds {q : ℚ} (h0 : 0 ≤ q) (h1 : q ≤ 100) :
    0 ≤ round2 q ∧ round2 q ≤ 100 := by
  constructor
  · have := round2_mono h0
    rwa [round2_zero] at this
  · have := round2_mono h1
    rwa [round2_hundred] at this

theorem clamp_fst_bounds {p : ℚ × List FactorDetail}
    (h : ∃ s, p.1 = _clamp s) : 0 ≤ p.1 ∧ p.1 ≤ 100 := by
  obtain ⟨s, hs⟩ := h
  rw [hs]
  exact ⟨_clamp_nonneg s, _clamp_le_hundred s⟩

theorem technical_score_bounds (ind : Indicators) :
    0 ≤ (_calc_technical_score ind).1 ∧ (_calc_technical_score ind).1 ≤ 100 :=
  clamp_fst_bounds ⟨_, rfl⟩

theorem momentum_score_bounds (ind : Indicators) :
    0 ≤ (_calc_momentum_score ind).1 ∧ (_calc_momentum_score ind).1 ≤ 100 :=
  clamp_fst_bounds ⟨_, rfl⟩

theorem volatility_score_bounds (vol : Option VolatilityData) :
    0 ≤ (_calc_volatility_score vol).1 ∧ (_calc_volatility_score vol).1 ≤ 100 := by
  cases vol with
  | none => exact ⟨by norm_num [_calc_volatility_score], by norm_num [_calc_volatility_score]⟩
  | some v => exact clamp_fst_bounds ⟨_, rfl⟩

theorem volume_score_bounds (ind : Indicators) :
    0 ≤ (_calc_volume_score ind).1 ∧ (_calc_volume_score ind).1 ≤ 100 :=
  clamp_fst_bounds ⟨_, rfl⟩

theorem sentiment_score_bounds (sent : Option SentimentData) :
    0 ≤ (_calc_sentiment_score sent).1 ∧ (_calc_sentiment_score sent).1 ≤ 100 := by
  cases sent with
  | none => exact ⟨by norm_num [_calc_sentiment_score], by norm_num [_calc_sentiment_score]⟩
  | some s => exact clamp_fst_bounds ⟨_, rfl⟩

theorem score_coin_fields (w : ScoringWeights) (cfg : ScoringThresholds)
    (ind : Indicators) (vol : Option VolatilityData) (sent : Option SentimentData) :
    (score_coin w cfg ind vol sent).technical_score
        = round2 (_calc_technical_score ind).1
    ∧ (score_coin w cfg ind vol sent).momentum_score
        = round2 (_calc_momentum_score ind).1
    ∧ (score_coin w cfg ind vol sent).volatility_score
        = round2 (_calc_volatility_score vol).1
    ∧ (score_coin w cfg ind vol sent).volume_score
        = round2 (_calc_volume_score ind).1
    ∧ (score_coin w cfg ind vol sent).sentiment_score
        = round2 (_calc_sentiment_score sent).1
    ∧ ∃ t, (score_coin w cfg ind vol sent).total_score = round2 (_clamp t) :=
  ⟨rfl, rfl, rfl, rfl, rfl, _, rfl⟩

/-! ## Claim theorems -/

/-- C9: every `ScoringResult` produced by `score_coin` has all five
factor sub-scores in `[0, 100]` and a weighted total score in `[0, 100]`,
for arbitrary indicator, volatility and sentiment inputs (and arbitrary
weights and thresholds). -/
theorem C9_scores_in_range (w : ScoringWeights) (cfg : ScoringThresholds)
    (ind : Indicators) (vol : Option VolatilityData)
    (sent : Option SentimentData) :
    let r := score_coin w cfg ind vol sent
    (0 ≤ r.technical_score ∧ r.technical_score ≤ 100)
    ∧ (0 ≤ r.momentum_score ∧ r.momentum_score ≤ 100)
    ∧ (0 ≤ r.volatility_score ∧ r.volatility_score ≤ 100)
    ∧ (0 ≤ r.volume_score ∧ r.volume_score ≤ 100)
    ∧ (0 ≤ r.sentiment_score ∧ r.sentiment_score ≤ 100)
    ∧ (0 ≤ r.total_score ∧ r.total_score ≤ 100) := by
  obtain ⟨h1, h2, h3, h4, h5, t, h6⟩ := score_coin_fields w cfg ind vol sent
  refine ⟨?_, ?_, ?_, ?_, ?_, ?_⟩
  · rw [h1]
    exact round2_bounds (technical_score_bounds ind).1 (technical_score_bounds ind).2
  · rw [h2]
    exact round2_bounds (momentum_score_bounds ind).1 (momentum_score_bounds ind).2
  · rw [h3]
    exact round2_bounds (volatility_score_bounds vol).1 (volatility_score_bounds vol).2
  · rw [h4]
    exact round2_bounds (volume_score_bounds ind).1 (volume_score_bounds ind).2
  · rw [h5]
    exact round2_bounds (sentiment_score_bounds sent).1 (sentiment_score_bounds sent).2
  · rw [h6]
    exact round2_bounds (_clamp_nonneg t) (_clamp_le_hundred t)

/-- C8: the scoring engine's signal cascade — `STRONG_BUY` when the
total reaches the strong-buy threshold, else `BUY` at the buy threshold,
else `SELL` at or below the sell threshold, else `HOLD`; at the default
thresholds the boundary totals `80`, `70` and `30` give `STRONG_BUY`,
`BUY` and `SELL` respectively. -/
theorem C8_signal_thresholds :
    (∀ (cfg : ScoringThresholds) (t : ℚ),
      (t ≥ cfg.strong_buy_threshold → _determine_signal cfg t = "STRONG_BUY")
      ∧ (¬ t ≥ cfg.strong_buy_threshold → t ≥ cfg.buy_threshold →
          _determine_signal cfg t = "BUY")
      ∧ (¬ t ≥ cfg.strong_buy_threshold → ¬ t ≥ cfg.buy_threshold →
          t ≤ cfg.sell_threshold → _determine_signal cfg t = "SELL")
      ∧ (¬ t ≥ cfg.strong_buy_threshold → ¬ t ≥ cfg.buy_threshold →
          ¬ t ≤ cfg.sell_threshold → _determine_signal cfg t = "HOLD"))
    ∧ _determine_signal {} 80 = "STRONG_BUY"
    ∧ _determine_signal {} 70 = "BUY"
    ∧ _determine_signal {} 30 = "SELL" := by
  refine ⟨fun cfg t => ⟨?_, ?_, ?_, ?_⟩, by decide, by decide, by decide⟩
  all_goals intros
  all_goals simp only [_determine_signal]
  all_goals split_ifs
  all_goals tauto

/-- C8 witness: the cascade applied at a concrete threshold set and
total (default thresholds, total 75 → BUY). -/
theorem C8_signal_thresholds_witness :
    _determine_signal {} 75 = "BUY" :=
  ((C8_signal_thresholds.1 {} 75).2.1 (by norm_num) (by norm_num))

/-- C4 counterexample: at RSI exactly `30.0` the technical factor's RSI
row carries contribution `+10` (the `rsi < 40` band), not `+20`, and at
exactly `85.0` it carries `−20` (the `rsi > 75` band), not `−30`. -/
theorem C4_counterexample :
    (_calc_technical_score { rsi_14 := some 30 }).2.head?
        = some ⟨"RSI(14)", 30, 10⟩
    ∧ (_calc_technical_score { rsi_14 := some 85 }).2.head?
        = some ⟨"RSI(14)", 85, -20⟩
    ∧ (10 : ℚ) ≠ 20 ∧ (-20 : ℚ) ≠ -30 := by
  refine ⟨?_, ?_, by norm_num, by norm_num⟩
  · norm_num [_calc_technical_score, round2, round_eq]
  · norm_num [_calc_technical_score, round2, round_eq]

/-- C4 amended: for any indicator row, RSI exactly `30.0` yields an RSI
contribution of `+10` and RSI exactly `85.0` yields `−20`; the `+20`
band requires `RSI < 30` strictly and the `−30` band `RSI > 85`
strictly. -/
theorem C4_rsi_boundary (ind : Indicators) :
    (ind.rsi_14 = some 30 →
      (_calc_technical_score ind).2.head? = some ⟨"RSI(14)", 30, 10⟩)
    ∧ (ind.rsi_14 = some 85 →
      (_calc_technical_score ind).2.head? = some ⟨"RSI(14)", 85, -20⟩)
    ∧ (∀ r, ind.rsi_14 = some r → 20 ≤ r → r < 30 →
      (_calc_technical_score ind).2.head? = some ⟨"RSI(14)", round2 r, 20⟩)
    ∧ (∀ r, ind.rsi_14 = some r → 85 < r →
      (_calc_technical_score ind).2.head? = some ⟨"RSI(14)", round2 r, -30⟩) := by
  refine ⟨?_, ?_, ?_, ?_⟩
  · intro h
    simp only [_calc_technical_score, h, Option.getD_some, List.head?_cons,
      Option.some.injEq]
    norm_num
    norm_num [round2, round_eq]
  · intro h
    simp only [_calc_technical_score, h, Option.getD_some, List.head?_cons,
      Option.some.injEq]
    norm_num
    norm_num [round2, round_eq]
  · intro r h h1 h2
    simp only [_calc_technical_score, h, Option.getD_some, List.head?_cons,
      Option.some.injEq]
    have : ¬ r < 20 := by linarith
    simp [this, h2, FactorDetail.mk.injEq]
  · intro r h h1
    simp only [_calc_technical_score, h, Option.getD_some, List.head?_cons,
      Option.some.injEq]
    have n1 : ¬ r < 20 := by linarith
    have n2 : ¬ r < 30 := by linarith
    have n3 : ¬ r < 40 := by linarith
    simp [n1, n2, n3, h1, FactorDetail.mk.injEq]

/-- C4 witness: the amended boundary facts applied at concrete
indicator rows (RSI 30 and RSI 85). -/
theorem C4_rsi_boundary_witness :
    (_calc_technical_score { rsi_14 := some 30 }).2.head?
        = some ⟨"RSI(14)", 30, 10⟩
    ∧ (_calc_technical_score { rsi_14 := some 85 }).2.head?
        = some ⟨"RSI(14)", 85, -20⟩ :=
  ⟨(C4_rsi_boundary { rsi_14 := some 30 }).1 rfl,
   (C4_rsi_boundary { rsi_14 := some 85 }).2.1 rfl⟩

/-- C1 counterexample: a long at entry 100, close 103 (PnL +3 % ≥
+2.5 %), no stop fires, but with `tp_stage = 0` the cascade returns the
first tier `TP1` with `quantity_pct = 0.3`, not a full close. -/
theorem C1_counterexample :
    check_exit_signal (exit_input_at 0) = ⟨"exit", "TP1", 3/10⟩
    ∧ exit_pnl_pct (exit_input_at 0) ≥ 25/1000
    ∧ ¬ (check_exit_signal (exit_input_at 0)).quantity_pct = 1 := by
  have h : check_exit_signal (exit_input_at 0) = ⟨"exit", "TP1", 3/10⟩ := by
    norm_num [check_exit_signal, exit_pnl_pct, exit_input_at, max_def, min_def]
  refine ⟨h, by norm_num [exit_pnl_pct, exit_input_at], by rw [h]; norm_num⟩

/-- C1 amended: a PnL of at least +2.5 % yields the full-close
`TAKE_PROFIT` (`TP3`, `quantity_pct = 1`) only when `tp_stage ≥ 2`
already (with lower stages the earlier 30 % tiers fire first), provided
neither dynamic stop condition holds. -/
theorem C1_tp3_full_close (i : ExitInput)
    (hstage : 2 ≤ i.tp_stage)
    (hpnl : exit_pnl_pct i ≥ 25/1000)
    (hlong : i.position_side = "long" →
      ¬ i.close < max i.recent_low (i.entry_price * (98/100)))
    (hshort : ¬ i.position_side = "long" →
      ¬ i.close > min i.recent_high (i.entry_price * (102/100))) :
    check_exit_signal i = ⟨"exit", "TP3", 1⟩ := by
  unfold check_exit_signal
  have c1 : ¬ (exit_pnl_pct i ≤ -(1/100)) := by linarith
  have c2 : ¬ (i.position_side = "long"
      ∧ i.close < max i.recent_low (i.entry_price * (98/100))) :=
    fun h => hlong h.1 h.2
  have c3 : ¬ (¬ i.position_side = "long"
      ∧ i.close > min i.recent_high (i.entry_price * (102/100))) :=
    fun h => hshort h.1 h.2
  have c4 : ¬ (i.tp_stage < 1 ∧ exit_pnl_pct i ≥ 8/1000) :=
    fun h => absurd h.1 (by omega)
  have c5 : ¬ (i.tp_stage < 2 ∧ exit_pnl_pct i ≥ 15/1000) :=
    fun h => absurd h.1 (by omega)
  rw [if_neg c1, if_neg c2, if_neg c3, if_neg c4, if_neg c5, if_pos hpnl]

/-- C1 witness: the amended tier applied to a long at entry 100, close
103, `tp_stage = 2` — a full close (`TP3`, quantity 1). -/
theorem C1_tp3_full_close_witness :
    check_exit_signal (exit_input_at 2) = ⟨"exit", "TP3", 1⟩ :=
  C1_tp3_full_close _ (by norm_num [exit_input_at])
    (by norm_num [exit_pnl_pct, exit_input_at])
    (fun _ => by norm_num [exit_input_at, max_def])
    (fun h => absurd rfl h)

theorem alookup_dinsert_self {α : Type} (l : List (String × α)) (k : String)
    (v : α) : alookup (dinsert l k v) k = some v := by
  induction l with
  | nil => simp [dinsert, alookup]
  | cons e rest ih =>
      by_cases h : e.1 = k
      · simp [dinsert, h, alookup]
      · simp [dinsert, h, alookup, ih]

theorem alookup_dinsert_ne {α : Type} (l : List (String × α)) (k k' : String)
    (v : α) (h : k' ≠ k) : alookup (dinsert l k v) k' = alookup l k' := by
  have hk : ¬ k = k' := fun he => h he.symm
  induction l with
  | nil => simp [dinsert, alookup, hk]
  | cons e rest ih =>
      by_cases he : e.1 = k
      · have he' : ¬ e.1 = k' := by rw [he]; exact hk
        simp [dinsert, he, alookup, hk, he']
      · simp only [dinsert, if_neg he, alookup]
        by_cases he' : e.1 = k'
        · simp [he']
        · simp [he', ih]

theorem mem_dinsert {α : Type} {e : String × α} {l : List (String × α)}
    {k : String} {v : α} (h : e ∈ dinsert l k v) : e = (k, v) ∨ e ∈ l := by
  induction l with
  | nil => simpa [dinsert] using h
  | cons e' rest ih =>
      by_cases he : e'.1 = k
      · simp only [dinsert, if_pos he, List.mem_cons] at h
        rcases h with h | h
        · exact .inl h
        · exact .inr (List.mem_cons_of_mem _ h)
      · simp only [dinsert, if_neg he, List.mem_cons] at h
        rcases h with h | h
        · exact .inr (h ▸ List.mem_cons_self _ _)
        · rcases ih h with h' | h'
          · exact .inl h'
          · exact .inr (List.mem_cons_of_mem _ h')

theorem alookup_mem {α : Type} {l : List (String × α)} {k : String} {v : α}
    (h : alookup l k = some v) : (k, v) ∈ l := by
  induction l with
  | nil => simp [alookup] at h
  | cons e rest ih =>
      by_cases he : e.1 = k
      · simp only [alookup, if_pos he, Option.some.injEq] at h
        have hev : e = (k, v) := by
          obtain ⟨e1, e2⟩ := e
          simp only at he h
          rw [he, h]
        rw [← hev]
        exact List.mem_cons_self _ _
      · simp only [alookup, if_neg he] at h
        exact List.mem_cons_of_mem _ (ih h)

/-- C2 counterexample: in paper mode with a wallet of 50 USDT, an
open-long of 100 USDT notional at price 10 is rejected although the
cash (50) is not less than the fee (0.1): the source tests
`margin + fee > balance`, not `fee > balance`. -/
theorem C2_counterexample :
    _paper_open_long {} ⟨50, []⟩ "BTC" 100 10 = none
    ∧ (100 : ℚ) * ({} : ExecConfig).fee_rate ≤ 50 := by
  constructor
  · norm_num [_paper_open_long]
  · norm_num

/-- C2 amended: `_paper_open_long` rejects exactly when the wallet
balance is below `margin + fee` (with `margin = notional / leverage`
for positive leverage, else the notional); on success only the fee is
deducted from the balance and the holdings slot for the base currency
is credited with `notional / price`, all other slots unchanged. -/
theorem C2_paper_open_long (cfg : ExecConfig) (st : PaperState)
    (base : String) (amount_usdt price : ℚ) :
    (_paper_open_long cfg st base amount_usdt price = none ↔
      st.balance_usdt <
        (if cfg.leverage > 0 then amount_usdt / (cfg.leverage : ℚ)
         else amount_usdt) + amount_usdt * cfg.fee_rate)
    ∧ (∀ st' fill,
        _paper_open_long cfg st base amount_usdt price = some (st', fill) →
        st'.balance_usdt = st.balance_usdt - amount_usdt * cfg.fee_rate
        ∧ alookup st'.holdings base
            = some ((alookup st.holdings base).getD 0 + amount_usdt / price)
        ∧ ∀ k, k ≠ base → alookup st'.holdings k = alookup st.holdings k) := by
  by_cases h : (if cfg.leverage > 0 then amount_usdt / (cfg.leverage : ℚ)
      else amount_usdt) + amount_usdt * cfg.fee_rate > st.balance_usdt
  · constructor
    · simp only [_paper_open_long, if_pos h]
      exact iff_of_true trivial h
    · intro st' fill hsome
      simp only [_paper_open_long, if_pos h] at hsome
      exact absurd hsome (by simp)
  · constructor
    · simp only [_paper_open_long, if_neg h]
      exact iff_of_false (by simp) (fun hx => h hx)
    · intro st' fill hsome
      simp only [_paper_open_long, if_neg h, Option.some.injEq, Prod.mk.injEq] at hsome
      obtain ⟨hst, -⟩ := hsome
      refine ⟨by rw [← hst], ?_, ?_⟩
      · rw [← hst]
        exact alookup_dinsert_self _ _ _
      · intro k hk
        rw [← hst]
        exact alookup_dinsert_ne _ _ _ _ hk

/-- C2 witness: the amended accounting at a concrete successful open —
wallet 1000 USDT, notional 100 at price 10: the balance drops only by
the fee 0.1 and the BTC slot is credited with 10. -/
theorem C2_paper_open_long_witness :
    (⟨9999/10, [("BTC", 10)]⟩ : PaperState).balance_usdt
        = (1000 : ℚ) - 100 * ({} : ExecConfig).fee_rate
    ∧ alookup (⟨9999/10, [("BTC", 10)]⟩ : PaperState).holdings "BTC"
        = some ((alookup ([] : List (String × ℚ)) "BTC").getD 0 + 100 / 10)
    ∧ ∀ k, k ≠ "BTC" →
        alookup (⟨9999/10, [("BTC", 10)]⟩ : PaperState).holdings k
          = alookup ([] : List (String × ℚ)) k :=
  (C2_paper_open_long {} ⟨1000, []⟩ "BTC" 100 10).2
    ⟨9999/10, [("BTC", 10)]⟩ ⟨10, 10, 100, 1/10⟩
    (by norm_num [_paper_open_long, dinsert, alookup])

/-- C10: non-negativity of the paper holdings.  Opening long or short
(with non-negative notional and price) preserves non-negative holdings;
closing always does, because the source clamps the decremented slot at
`max(0, held − quantity)` — in particular closing more than the held
quantity leaves the slot at exactly `0`; and a wallet restored by
`_load_paper_state` keeps only strictly positive quantities. -/
theorem C10_holdings_nonneg :
    (∀ (cfg : ExecConfig) (st : PaperState) (base : String)
        (amount_usdt price : ℚ) (st' : PaperState) (fill : PaperFill),
      (∀ e ∈ st.holdings, 0 ≤ e.2) → 0 ≤ amount_usdt → 0 ≤ price →
      _paper_open_long cfg st base amount_usdt price = some (st', fill) →
      ∀ e ∈ st'.holdings, 0 ≤ e.2)
    ∧ (∀ (cfg : ExecConfig) (st : PaperState) (base : String)
        (amount_usdt price : ℚ) (st' : PaperState) (fill : PaperFill),
      (∀ e ∈ st.holdings, 0 ≤ e.2) → 0 ≤ amount_usdt → 0 ≤ price →
      _paper_open_short cfg st base amount_usdt price = some (st', fill) →
      ∀ e ∈ st'.holdings, 0 ≤ e.2)
    ∧ (∀ (cfg : ExecConfig) (st : PaperState) (base position_side : String)
        (quantity price : ℚ),
      (∀ e ∈ st.holdings, 0 ≤ e.2) →
      ∀ e ∈ (_paper_close cfg st base position_side quantity price).1.holdings,
        0 ≤ e.2)
    ∧ (∀ (cfg : ExecConfig) (st : PaperState) (base position_side : String)
        (quantity price : ℚ),
      (alookup st.holdings
          (if position_side = "long" then base else "SHORT_" ++ base)).getD 0
        ≤ quantity →
      alookup (_paper_close cfg st base position_side quantity price).1.holdings
          (if position_side = "long" then base else "SHORT_" ++ base)
        = some 0)
    ∧ (∀ (usdt : ℚ) (holdings_raw : List (String × ℚ)),
      ∀ e ∈ (_load_paper_state usdt holdings_raw).holdings, 0 < e.2) := by
  refine ⟨?_, ?_, ?_, ?_, ?_⟩
  · intro cfg st base amount price st' fill hnn ham hpr hsome e he
    by_cases h : (if cfg.leverage > 0 then amount / (cfg.leverage : ℚ)
        else amount) + amount * cfg.fee_rate > st.balance_usdt
    · simp [_paper_open_long, if_pos h] at hsome
    · simp only [_paper_open_long, if_neg h, Option.some.injEq,
        Prod.mk.injEq] at hsome
      obtain ⟨hst, -⟩ := hsome
      rw [← hst] at he
      rcases mem_dinsert he with h' | h'
      · rw [h']
        have h0 : 0 ≤ (alookup st.holdings base).getD 0 := by
          cases hl : alookup st.holdings base with
          | none => simp
          | some v => simpa using hnn _ (alookup_mem hl)
        have : (0 : ℚ) ≤ amount / price := div_nonneg ham hpr
        simpa using add_nonneg h0 this
      · exact hnn _ h'
  · intro cfg st base amount price st' fill hnn ham hpr hsome e he
    by_cases h : (if cfg.leverage > 0 then amount / (cfg.leverage : ℚ)
        else amount) + amount * cfg.fee_rate > st.balance_usdt
    · simp [_paper_open_short, if_pos h] at hsome
    · simp only [_paper_open_short, if_neg h, Option.some.injEq,
        Prod.mk.injEq] at hsome
      obtain ⟨hst, -⟩ := hsome
      rw [← hst] at he
      rcases mem_dinsert he with h' | h'
      · rw [h']
        have h0 : 0 ≤ (alookup st.holdings ("SHORT_" ++ base)).getD 0 := by
          cases hl : alookup st.holdings ("SHORT_" ++ base) with
          | none => simp
          | some v => simpa using hnn _ (alookup_mem hl)
        have : (0 : ℚ) ≤ amount / price := div_nonneg ham hpr
        simpa using add_nonneg h0 this
      · exact hnn _ h'
  · intro cfg st base side quantity price hnn e he
    simp only [_paper_close] at he
    rcases mem_dinsert he with h' | h'
    · rw [h']
      exact le_max_left 0 _
    · exact hnn _ h'
  · intro cfg st base side quantity price hle
    simp only [_paper_close]
    rw [alookup_dinsert_self]
    congr 1
    exact max_eq_left (by linarith)
  · intro usdt raw e he
    simp only [_load_paper_state, List.mem_filter] at he
    exact of_decide_eq_true he.2

/-- C10 witness: the clamp applied concretely — holding 5 BTC, closing
7 leaves the BTC slot at exactly 0 (and the restored-state conjunct at
a raw snapshot with a non-positive entry, which is dropped). -/
theorem C10_holdings_nonneg_witness :
    alookup (_paper_close {} ⟨100, [("BTC", 5)]⟩ "BTC" "long" 7 10).1.holdings
        (if "long" = "long" then "BTC" else "SHORT_" ++ "BTC") = some 0 :=
  C10_holdings_nonneg.2.2.2.1 {} ⟨100, [("BTC", 5)]⟩ "BTC" "long" 7 10
    (by norm_num [alookup])

/-- C3 counterexample: a single open position whose symbol has no entry
in the current-price map produces no `RiskAction` at all — the risk
check returns an empty list, not one action per position. -/
theorem C3_counterexample :
    check_positions {} [{ symbol := "BTC", avg_buy_price := 100, volume := 1 }] []
      = []
    ∧ ([{ symbol := "BTC", avg_buy_price := 100, volume := 1 }]
        : List RMPosition).length = 1 :=
  ⟨rfl, rfl⟩

/-- C3 amended: `check_positions` produces exactly one `RiskAction` per
position whose symbol is priced (present in the map with a non-zero
price); positions with a missing or zero price are skipped.  The output
is precisely the evaluation of each priced position, in order. -/
theorem C3_one_action_per_priced_position (rm : RiskConfig)
    (positions : List RMPosition) (current_prices : List (String × ℚ)) :
    check_positions rm positions current_prices
      = (positions.filter
          (fun p => (alookup current_prices p.symbol).getD 0 ≠ 0)).map
          (fun p => _evaluate_position rm p
            ((alookup current_prices p.symbol).getD 0))
    ∧ (check_positions rm positions current_prices).length
      = (positions.filter
          (fun p => (alookup current_prices p.symbol).getD 0 ≠ 0)).length := by
  have main : check_positions rm positions current_prices
      = (positions.filter
          (fun p => (alookup current_prices p.symbol).getD 0 ≠ 0)).map
          (fun p => _evaluate_position rm p
            ((alookup current_prices p.symbol).getD 0)) := by
    induction positions with
    | nil => rfl
    | cons p rest ih =>
        cases hl : alookup current_prices p.symbol with
        | none =>
            simp only [check_positions, hl, List.filter_cons, Option.getD_none]
            norm_num [ih]
        | some pr =>
            by_cases hz : pr = 0
            · simp only [check_positions, hl, if_pos hz, List.filter_cons,
                Option.getD_some, hz]
              norm_num [ih]
            · simp only [check_positions, hl, if_neg hz, List.filter_cons,
                Option.getD_some]
              simp [hz, ih, hl]
  exact ⟨main, by rw [main, List.length_map]⟩

theorem alookup_eq_none_of_not_mem {α : Type} {l : List (String × α)}
    {k : String} (h : k ∉ l.map Prod.fst) : alookup l k = none := by
  induction l with
  | nil => rfl
  | cons e rest ih =>
      simp only [List.map_cons, List.mem_cons] at h
      push_neg at h
      have he : ¬ e.1 = k := fun hx => h.1 hx.symm
      simp only [alookup, if_neg he, ih h.2]

theorem alookup_filter_none {α : Type} (q : String × α → Bool)
    {l : List (String × α)} {k : String} (h : alookup l k = none) :
    alookup (l.filter q) k = none := by
  induction l with
  | nil => rfl
  | cons e rest ih =>
      by_cases he : e.1 = k
      · simp [alookup, he] at h
      · simp only [alookup, if_neg he] at h
        by_cases hq : q e
        · simp only [List.filter_cons, hq, alookup, if_neg he]
          exact ih h
        · simp only [List.filter_cons, Bool.not_eq_true] at hq ⊢
          rw [hq]
          exact ih h

theorem alookup_filter_nodup {α : Type} (q : String × α → Bool)
    {l : List (String × α)} {k : String} {v : α}
    (hnd : (l.map Prod.fst).Nodup) (h : alookup l k = some v) :
    alookup (l.filter q) k = if q (k, v) then some v else none := by
  induction l with
  | nil => simp [alookup] at h
  | cons e rest ih =>
      simp only [List.map_cons, List.nodup_cons] at hnd
      by_cases he : e.1 = k
      · simp only [alookup, if_pos he, Option.some.injEq] at h
        have hekv : e = (k, v) := by
          obtain ⟨e1, e2⟩ := e
          simp only at he h
          rw [he, h]
        subst hekv
        by_cases hq : q (k, v) = true
        · simp only [List.filter_cons, if_pos hq, alookup, if_pos he, h, hq,
            if_true]
        · rw [List.filter_cons, if_neg hq, if_neg hq,
            alookup_filter_none q
              (alookup_eq_none_of_not_mem (by simpa using hnd.1))]
      · simp only [alookup, if_neg he] at h
        by_cases hq : q e = true
        · simp only [List.filter_cons, if_pos hq, alookup, if_neg he]
          exact ih hnd.2 h
        · rw [List.filter_cons, if_neg hq]
          exact ih hnd.2 h

/-- C7 counterexample: tracker `{ETH ↦ long}`, exchange `{ETH short}`.
The exchange position has no same-side tracker record, so a close is
issued for it — but the tracker is *not* left unmodified for that pair:
its opposite-side ETH record is evicted by the first pass. -/
theorem C7_counterexample :
    (sync_with_exchange [("ETH/USDT:USDT", "long")]
        [⟨"ETH/USDT:USDT", "short", 1/2⟩]).2
      = [⟨"ETH/USDT:USDT", 1/2, "short"⟩]
    ∧ alookup (sync_with_exchange [("ETH/USDT:USDT", "long")]
        [⟨"ETH/USDT:USDT", "short", 1/2⟩]).1 "ETH/USDT:USDT" = none
    ∧ alookup [("ETH/USDT:USDT", "long")] "ETH/USDT:USDT" = some "long" := by
  refine ⟨?_, ?_, ?_⟩ <;> simp [sync_with_exchange, alookup]

/-- C7 amended: for a tracker with unique pairs, (1) every tracked pair
without a same-side exchange position is evicted; (2) every exchange
position whose pair is untracked or tracked with the opposite side gets
a market-close for its reported quantity; (3) the tracker stays
unmodified for pairs it never tracked; (4) pairs with a same-side match
are retained unchanged.  (The close pass never writes the tracker; an
opposite-side record is evicted by pass 1, not by the close.) -/
theorem C7_sync (db : List (String × String)) (ex : List ExchangePos)
    (hnd : (db.map Prod.fst).Nodup) :
    (∀ pair side, alookup db pair = some side →
      (¬ ∃ p ∈ ex, p.pair = pair ∧ p.side = side) →
      alookup (sync_with_exchange db ex).1 pair = none)
    ∧ (∀ p ∈ ex,
        (alookup db p.pair = none
          ∨ ∃ s, alookup db p.pair = some s ∧ s ≠ p.side) →
        (⟨p.pair, p.qty, p.side⟩ : CloseOrder) ∈ (sync_with_exchange db ex).2)
    ∧ (∀ p ∈ ex, alookup db p.pair = none →
        alookup (sync_with_exchange db ex).1 p.pair = none)
    ∧ (∀ pair side, alookup db pair = some side →
        (∃ p ∈ ex, p.pair = pair ∧ p.side = side) →
        alookup (sync_with_exchange db ex).1 pair = some side) := by
  refine ⟨?_, ?_, ?_, ?_⟩
  · intro pair side hl hno
    have := alookup_filter_nodup
      (fun e => ex.any (fun p => p.pair = e.1 ∧ p.side = e.2)) hnd hl
    rw [sync_with_exchange]
    rw [this, if_neg]
    simp only [List.any_eq_true, decide_eq_true_eq]
    exact fun hx => hno (by simpa using hx)
  · intro p hp hcase
    simp only [sync_with_exchange]
    refine List.mem_filterMap.mpr ⟨p, hp, ?_⟩
    rcases hcase with hnone | ⟨s, hs, hne⟩
    · rw [hnone]
    · rw [hs]
      simp [hne]
  · intro p hp hl
    exact alookup_filter_none _ hl
  · intro pair side hl hyes
    have := alookup_filter_nodup
      (fun e => ex.any (fun p => p.pair = e.1 ∧ p.side = e.2)) hnd hl
    rw [sync_with_exchange]
    rw [this, if_pos]
    simp only [List.any_eq_true, decide_eq_true_eq]
    exact (by simpa using hyes)

/-- C7 witness: the amended reconciliation at a concrete pair of
snapshots — tracked XRP long with no exchange match is evicted, and the
untracked exchange ETH long gets a close order. -/
theorem C7_sync_witness :
    alookup (sync_with_exchange [("XRP", "long")] [⟨"ETH", "long", 1⟩]).1 "XRP"
      = none
    ∧ (⟨"ETH", 1, "long"⟩ : CloseOrder)
        ∈ (sync_with_exchange [("XRP", "long")] [⟨"ETH", "long", 1⟩]).2 :=
  ⟨(C7_sync [("XRP", "long")] [⟨"ETH", "long", 1⟩] (by simp)).1 "XRP" "long"
      (by simp [alookup]) (by simp),
   (C7_sync [("XRP", "long")] [⟨"ETH", "long", 1⟩] (by simp)).2.1 _
      (List.mem_cons_self _ _) (.inl (by simp [alookup]))⟩

theorem derase_sublist {α : Type} (l : List (String × α)) (k : String) :
    List.Sublist (derase l k) l := by
  induction l with
  | nil => simp [derase]
  | cons e rest ih =>
      by_cases he : e.1 = k
      · simp only [derase, if_pos he]
        exact List.sublist_cons_self e rest
      · simp only [derase, if_neg he]
        exact List.Sublist.cons₂ e ih

theorem alookup_derase_ne {α : Type} {l : List (String × α)} {k k' : String}
    (h : k' ≠ k) : alookup (derase l k) k' = alookup l k' := by
  induction l with
  | nil => rfl
  | cons e rest ih =>
      by_cases he : e.1 = k
      · have : ¬ e.1 = k' := by rw [he]; exact fun hx => h hx.symm
        simp only [derase, if_pos he, alookup, if_neg this]
      · simp only [derase, if_neg he, alookup]
        by_cases he' : e.1 = k'
        · simp [he']
        · simp [he', ih]

theorem sum_derase {α : Type} [AddCommGroup α] {l : List (String × α)}
    {k : String} {v : α} (h : alookup l k = some v) :
    ((derase l k).map (·.2)).sum = (l.map (·.2)).sum - v := by
  induction l with
  | nil => simp [alookup] at h
  | cons e rest ih =>
      by_cases he : e.1 = k
      · simp only [alookup, if_pos he, Option.some.injEq] at h
        simp only [derase, if_pos he, List.map_cons, List.sum_cons, h]
        abel
      · simp only [alookup, if_neg he] at h
        simp only [derase, if_neg he, List.map_cons, List.sum_cons, ih h]
        abel

theorem mem_keys_dinsert {α : Type} {l : List (String × α)} {k s : String}
    {v : α} (h : s ∈ (dinsert l k v).map Prod.fst) :
    s = k ∨ s ∈ l.map Prod.fst := by
  simp only [List.mem_map] at h ⊢
  obtain ⟨e, he, hs⟩ := h
  rcases mem_dinsert he with h' | h'
  · left
    rw [← hs, h']
  · right
    exact ⟨e, h', hs⟩

theorem dinsert_keys_nodup {α : Type} {l : List (String × α)} {k : String}
    {v : α} (h : (l.map Prod.fst).Nodup) :
    ((dinsert l k v).map Prod.fst).Nodup := by
  induction l with
  | nil => simp [dinsert]
  | cons e rest ih =>
      simp only [List.map_cons, List.nodup_cons] at h
      obtain ⟨hnotin, hnd⟩ := h
      by_cases he : e.1 = k
      · simp only [dinsert, if_pos he, List.map_cons, List.nodup_cons]
        exact ⟨he ▸ hnotin, hnd⟩
      · simp only [dinsert, if_neg he, List.map_cons, List.nodup_cons]
        refine ⟨?_, ih hnd⟩
        intro hmem
        rcases mem_keys_dinsert hmem with h' | h'
        · exact he h'
        · exact hnotin h'

theorem raw_weights_keys_nodup (cfg : AllocConfig) (candidates : List Candidate)
    (current_prices : List (String × ℚ)) :
    ((raw_weights cfg candidates current_prices).map Prod.fst).Nodup := by
  suffices h : ∀ (cs : List Candidate) (acc : List (String × ℚ)),
      (acc.map Prod.fst).Nodup →
      ((cs.foldl (fun acc c =>
        match alookup current_prices c.symbol with
        | none => acc
        | some _ =>
            let weight := if c.signal = "STRONG_BUY"
              then c.total_score * cfg.strong_buy_boost else c.total_score
            dinsert acc c.symbol weight) acc).map Prod.fst).Nodup by
    exact h candidates [] (by simp)
  intro cs
  induction cs with
  | nil => exact fun acc h => h
  | cons c rest ih =>
      intro acc hacc
      simp only [List.foldl_cons]
      cases alookup current_prices c.symbol with
      | none => exact ih acc hacc
      | some p => exact ih _ (dinsert_keys_nodup hacc)

theorem map_fst_map_pair {α β γ : Type} (l : List (α × β)) (f : α × β → γ) :
    (l.map (fun e => (e.1, f e))).map Prod.fst = l.map Prod.fst := by
  induction l with
  | nil => rfl
  | cons e rest ih => simp only [List.map_cons, ih]

theorem map_snd_map_pair {α β γ : Type} (l : List (α × β)) (f : α × β → γ) :
    (l.map (fun e => (e.1, f e))).map (fun x => x.2) = l.map f := by
  induction l with
  | nil => rfl
  | cons e rest ih => simp only [List.map_cons, ih]

theorem clamped_weights_keys (cfg : AllocConfig) (raw : List (String × ℚ)) :
    (clamped_weights cfg raw).map Prod.fst = raw.map Prod.fst := by
  unfold clamped_weights renormalize clamp_pct normalized_weights
  split
  · rw [map_fst_map_pair, map_fst_map_pair, map_fst_map_pair]
  · rw [map_fst_map_pair, map_fst_map_pair]

theorem clamp_pct_ge_min (cfg : AllocConfig) (l : List (String × ℚ)) :
    ∀ x ∈ (clamp_pct cfg l).map (fun x => x.2), cfg.min_allocation_pct ≤ x := by
  intro x hx
  unfold clamp_pct at hx
  rw [map_snd_map_pair] at hx
  obtain ⟨y, -, hy⟩ := List.mem_map.mp hx
  rw [← hy]
  exact le_max_left _ _

theorem clamped_weights_nonneg (cfg : AllocConfig) (raw : List (String × ℚ))
    (hmin : 0 < cfg.min_allocation_pct) :
    ∀ e ∈ clamped_weights cfg raw, 0 ≤ e.2 := by
  intro e he
  have hval := clamp_pct_ge_min cfg (normalized_weights raw)
  unfold clamped_weights renormalize at he
  split at he
  case isTrue hS =>
    obtain ⟨y, hy, hye⟩ := List.mem_map.mp he
    rw [← hye]
    refine div_nonneg ?_ (le_of_lt hS)
    exact le_trans (le_of_lt hmin)
      (hval y.2 (List.mem_map.mpr ⟨y, hy, rfl⟩))
  case isFalse hS =>
    exact le_trans (le_of_lt hmin)
      (hval e.2 (List.mem_map.mpr ⟨e, he, rfl⟩))

theorem sum_pos_of_forall_le {l : List ℚ} (c : ℚ) (hc : 0 < c)
    (h : ∀ x ∈ l, c ≤ x) (hne : l ≠ []) : 0 < l.sum := by
  cases l with
  | nil => exact absurd rfl hne
  | cons x rest =>
      simp only [List.sum_cons]
      have hx : c ≤ x := h x (List.mem_cons_self _ _)
      have hrest : 0 ≤ rest.sum :=
        List.sum_nonneg (fun y hy =>
          le_trans (le_of_lt hc) (h y (List.mem_cons_of_mem _ hy)))
      linarith

theorem renormalize_sum {l : List (String × ℚ)}
    (hS : 0 < (l.map (fun x => x.2)).sum) :
    ((renormalize l).map (fun x => x.2)).sum = 1 := by
  unfold renormalize
  rw [if_pos hS, map_snd_map_pair]
  simp only [div_eq_mul_inv]
  rw [List.sum_map_mul_right]
  exact mul_inv_cancel₀ (ne_of_gt hS)

theorem clamped_weights_sum (cfg : AllocConfig) (raw : List (String × ℚ))
    (hmin : 0 < cfg.min_allocation_pct) (hne : raw ≠ []) :
    ((clamped_weights cfg raw).map (fun x => x.2)).sum = 1 := by
  unfold clamped_weights
  refine renormalize_sum (sum_pos_of_forall_le cfg.min_allocation_pct hmin
    (clamp_pct_ge_min cfg (normalized_weights raw)) ?_)
  unfold clamp_pct normalized_weights
  cases raw with
  | nil => exact absurd rfl hne
  | cons e rest => simp

theorem filterMap_congr_mem {α β : Type} {f g : α → Option β}
    {l : List α} (h : ∀ a ∈ l, f a = g a) : l.filterMap f = l.filterMap g := by
  induction l with
  | nil => rfl
  | cons a rest ih =>
      simp only [List.filterMap_cons, h a (List.mem_cons_self _ _)]
      rw [ih (fun a' ha' => h a' (List.mem_cons_of_mem _ ha'))]

theorem alloc_entry_congr (cfg : AllocConfig) (investable : ℚ)
    (current_prices : List (String × ℚ)) (c : Candidate)
    {es es' : List (String × ℚ)}
    (h : alookup es c.symbol = alookup es' c.symbol) :
    alloc_entry cfg investable es current_prices c
      = alloc_entry cfg investable es' current_prices c := by
  unfold alloc_entry
  rw [h]

theorem alloc_entry_amount {cfg : AllocConfig} {investable : ℚ}
    {es current_prices : List (String × ℚ)} {c : Candidate} {a : Allocation}
    (h : alloc_entry cfg investable es current_prices c = some a) :
    ∃ w, alookup es c.symbol = some w
      ∧ a.allocation_amount = roundQ (investable * w) := by
  unfold alloc_entry at h
  cases hl : alookup es c.symbol with
  | none => rw [hl] at h; exact absurd h (by simp)
  | some w =>
      rw [hl] at h
      dsimp only at h
      refine ⟨w, rfl, ?_⟩
      by_cases hmin : investable * w < cfg.min_order_krw
      · rw [if_pos hmin] at h
        exact absurd h (by simp)
      · rw [if_neg hmin] at h
        cases hp : alookup current_prices c.symbol with
        | none => rw [hp] at h; exact absurd h (by simp)
        | some pr =>
            rw [hp] at h
            dsimp only at h
            simp only [Option.some.injEq] at h
            rw [← h]

theorem roundQ_le_add_half (q : ℚ) : roundQ q ≤ q + 1/2 := by
  unfold roundQ
  exact round_le_add_half q

theorem alloc_sum_le (cfg : AllocConfig) (investable : ℚ)
    (current_prices : List (String × ℚ)) (hinv : 0 ≤ investable) :
    ∀ (cs : List Candidate) (es : List (String × ℚ)),
      (cs.map (fun c => c.symbol)).Nodup → (es.map Prod.fst).Nodup →
      (∀ e ∈ es, 0 ≤ e.2) →
      ((cs.filterMap (alloc_entry cfg investable es current_prices)).map
          (fun a => a.allocation_amount)).sum
        ≤ investable * ((es.map (fun x => x.2)).sum)
          + ((cs.filterMap
              (alloc_entry cfg investable es current_prices)).length : ℚ)
            * (1/2) := by
  intro cs
  induction cs with
  | nil =>
      intro es _ _ hval
      have hsum : 0 ≤ (es.map (fun x => x.2)).sum :=
        List.sum_nonneg (fun x hx => by
          obtain ⟨e, he, hex⟩ := List.mem_map.mp hx
          rw [← hex]
          exact hval e he)
      have := mul_nonneg hinv hsum
      simp only [List.filterMap_nil, List.map_nil, List.sum_nil,
        List.length_nil]
      push_cast
      linarith
  | cons c rest ih =>
      intro es hnodc hnode hval
      simp only [List.map_cons, List.nodup_cons] at hnodc
      obtain ⟨hcnot, hnodrest⟩ := hnodc
      cases hl : alookup es c.symbol with
      | none =>
          have hce : alloc_entry cfg investable es current_prices c = none := by
            unfold alloc_entry
            rw [hl]
          simp only [List.filterMap_cons, hce]
          exact ih es hnodrest hnode hval
      | some w =>
          have hw0 : 0 ≤ w := hval _ (alookup_mem hl)
          have hsum : ((derase es c.symbol).map (fun x => x.2)).sum
              = (es.map (fun x => x.2)).sum - w := sum_derase hl
          have htail : rest.filterMap (alloc_entry cfg investable es current_prices)
              = rest.filterMap
                  (alloc_entry cfg investable (derase es c.symbol) current_prices) := by
            refine filterMap_congr_mem (fun c' hc' => ?_)
            refine alloc_entry_congr cfg investable current_prices c' ?_
            refine (alookup_derase_ne ?_).symm
            intro hx
            exact hcnot (hx ▸ List.mem_map.mpr ⟨c', hc', rfl⟩)
          have hnode' : (((derase es c.symbol)).map Prod.fst).Nodup :=
            hnode.sublist ((derase_sublist es c.symbol).map Prod.fst)
          have hval' : ∀ e ∈ derase es c.symbol, 0 ≤ e.2 := fun e he =>
            hval e ((derase_sublist es c.symbol).subset he)
          have IH := ih (derase es c.symbol) hnodrest hnode' hval'
          rw [← htail, hsum] at IH
          have hexpand : investable * ((es.map (fun x => x.2)).sum - w)
              = investable * (es.map (fun x => x.2)).sum - investable * w := by
            ring
          rw [hexpand] at IH
          have hiw : 0 ≤ investable * w := mul_nonneg hinv hw0
          cases hce : alloc_entry cfg investable es current_prices c with
          | none =>
              simp only [List.filterMap_cons, hce]
              linarith
          | some a =>
              obtain ⟨w', hw', ham⟩ := alloc_entry_amount hce
              rw [hl] at hw'
              injection hw' with hww
              subst hww
              have hround := roundQ_le_add_half (investable * w)
              simp only [List.filterMap_cons, hce, List.map_cons,
                List.sum_cons, List.length_cons, ham]
              push_cast
              linarith

/-- C5 counterexample: with the default configuration, available cash
55 563 and a single BUY candidate, the investable amount is 50 006.7
but the only allocation stores the *rounded* amount 50 007, so the sum
of returned allocation amounts exceeds
`(1 − reserve_ratio) × available`. -/
theorem C5_counterexample :
    ((allocate {} 55563 [⟨"BTC", 80, "BUY"⟩] [("BTC", 100)]).map
        (fun a => a.allocation_amount)).sum = 50007
    ∧ ¬ ((50007 : ℚ) ≤ 55563 * (1 - ({} : AllocConfig).reserve_ratio)) := by
  constructor
  · have hsig : ¬ ("BUY" : String) = "STRONG_BUY" := by decide
    have hraw : raw_weights {} [⟨"BTC", 80, "BUY"⟩] [("BTC", 100)]
        = [("BTC", 80)] := by
      norm_num [raw_weights, alookup, dinsert, hsig]
    have hclamped : clamped_weights {} [("BTC", 80)] = [("BTC", 1)] := by
      norm_num [clamped_weights, normalized_weights, clamp_pct, renormalize,
        max_def, min_def]
    have h1 : roundQ ((500067 : ℚ)/10) = 50007 := by
      norm_num [roundQ, round_eq]
    have h2 : roundQ ((997 : ℚ)/10) = 100 := by
      norm_num [roundQ, round_eq]
    have hentry : alloc_entry {} ((500067 : ℚ)/10) [("BTC", 1)]
        [("BTC", 100)] ⟨"BTC", 80, "BUY"⟩
        = some ⟨"BTC", 80, "BUY", 1, 50007, 100, 500067/997⟩ := by
      norm_num [alloc_entry, alookup]
      exact ⟨h1, h2⟩
    norm_num [allocate, hraw, hclamped, hentry, List.filterMap_cons,
      List.filterMap_nil]
  · norm_num

/-- C5 amended: for candidates with pairwise-distinct symbols, a
positive minimum allocation percentage and a non-negative investable
amount, the sum of the returned (whole-unit-rounded) allocation amounts
can exceed investable = `(1 − reserve_ratio) × available` by at most
half a currency unit per allocation:
`Σ ≤ investable + n/2` (the unrounded amounts sum to at most
investable); and whenever investable is below the minimum order
notional the allocator returns the empty list. -/
theorem C5_allocation_sum (cfg : AllocConfig) (available_krw : ℚ)
    (candidates : List Candidate) (current_prices : List (String × ℚ))
    (hnd : (candidates.map (fun c => c.symbol)).Nodup)
    (hmin : 0 < cfg.min_allocation_pct)
    (hnn : 0 ≤ available_krw * (1 - cfg.reserve_ratio)) :
    (((allocate cfg available_krw candidates current_prices).map
        (fun a => a.allocation_amount)).sum
      ≤ available_krw * (1 - cfg.reserve_ratio)
        + ((allocate cfg available_krw candidates current_prices).length : ℚ)
          * (1/2))
    ∧ (available_krw * (1 - cfg.reserve_ratio) < cfg.min_order_krw →
      allocate cfg available_krw candidates current_prices = []) := by
  constructor
  · simp only [allocate]
    split_ifs with h1 h2 h3
    · simp only [List.map_nil, List.sum_nil, List.length_nil]
      push_cast
      linarith
    · simp only [List.map_nil, List.sum_nil, List.length_nil]
      push_cast
      linarith
    · simp only [List.map_nil, List.sum_nil, List.length_nil]
      push_cast
      linarith
    · set raw := raw_weights cfg candidates current_prices with hraw
      set es := clamped_weights cfg raw with hes
      set L := candidates.filterMap
        (alloc_entry cfg (available_krw * (1 - cfg.reserve_ratio)) es
          current_prices) with hL
      have hperm : (L.mergeSort
          (fun a b => b.allocation_amount ≤ a.allocation_amount)).Perm L :=
        List.mergeSort_perm L _
      rw [(hperm.map (fun a => a.allocation_amount)).sum_eq, hperm.length_eq]
      have hkeys : (es.map Prod.fst).Nodup := by
        rw [hes, clamped_weights_keys, hraw]
        exact raw_weights_keys_nodup cfg candidates current_prices
      have hvals : ∀ e ∈ es, 0 ≤ e.2 := clamped_weights_nonneg cfg raw hmin
      have hsum1 : ((es.map (fun x => x.2)).sum) = 1 :=
        clamped_weights_sum cfg raw hmin h3
      have := alloc_sum_le cfg (available_krw * (1 - cfg.reserve_ratio))
        current_prices hnn candidates es hnd hkeys hvals
      rw [hsum1, mul_one] at this
      exact this
  · intro hlt
    simp only [allocate]
    split_ifs <;> rfl

/-- C5 witness: the amended bound at a concrete call — one candidate,
available 10 000: the single allocation of 9 000 respects
`Σ ≤ 9000 + 1·(1/2)` (and the empty-list conjunct is vacuous there). -/
theorem C5_allocation_sum_witness :
    (((allocate {} 10000 [⟨"BTC", 80, "BUY"⟩] [("BTC", 100)]).map
        (fun a => a.allocation_amount)).sum
      ≤ 10000 * (1 - ({} : AllocConfig).reserve_ratio)
        + ((allocate {} 10000 [⟨"BTC", 80, "BUY"⟩] [("BTC", 100)]).length : ℚ)
          * (1/2))
    ∧ (10000 * (1 - ({} : AllocConfig).reserve_ratio)
        < ({} : AllocConfig).min_order_krw →
      allocate {} 10000 [⟨"BTC", 80, "BUY"⟩] [("BTC", 100)] = []) :=
  C5_allocation_sum {} 10000 [⟨"BTC", 80, "BUY"⟩] [("BTC", 100)]
    (by simp) (by norm_num) (by norm_num)

/-- C6 counterexample: default configuration, available 10 001, a
single BUY candidate priced at 100.  The final weight is 1.0, but the
stored allocation amount is `round(9000.9) = 9001`, which is *not* the
investable amount `10001 × 0.9 = 9000.9`. -/
theorem C6_counterexample :
    (allocate {} 10001 [⟨"BTC", 80, "BUY"⟩] [("BTC", 100)]).map
        (fun a => (a.weight, a.allocation_amount)) = [((1 : ℚ), (9001 : ℚ))]
    ∧ ¬ ((9001 : ℚ) = 10001 * (1 - ({} : AllocConfig).reserve_ratio)) := by
  constructor
  · have hsig : ¬ ("BUY" : String) = "STRONG_BUY" := by decide
    have hraw : raw_weights {} [⟨"BTC", 80, "BUY"⟩] [("BTC", 100)]
        = [("BTC", 80)] := by
      norm_num [raw_weights, alookup, dinsert, hsig]
    have hclamped : clamped_weights {} [("BTC", 80)] = [("BTC", 1)] := by
      norm_num [clamped_weights, normalized_weights, clamp_pct, renormalize,
        max_def, min_def]
    have h1 : roundQ ((90009 : ℚ)/10) = 9001 := by
      norm_num [roundQ, round_eq]
    have h2 : roundQ ((997 : ℚ)/10) = 100 := by
      norm_num [roundQ, round_eq]
    have hentry : alloc_entry {} ((90009 : ℚ)/10) [("BTC", 1)]
        [("BTC", 100)] ⟨"BTC", 80, "BUY"⟩
        = some ⟨"BTC", 80, "BUY", 1, 9001, 100, 90009/997⟩ := by
      norm_num [alloc_entry, alookup]
      exact ⟨h1, h2⟩
    norm_num [allocate, hraw, hclamped, hentry, List.filterMap_cons,
      List.filterMap_nil]
  · norm_num

/-- C6 amended: with a single candidate that has a current price, a
positive raw weight, a positive maximum allocation percentage and an
investable amount at or above the minimum order, the final weight after
clamping and renormalization is exactly `1.0` and the whole investable
amount is allocated: the stored allocation amount is investable
*rounded to a whole currency unit* (equal to investable exactly when it
is whole), and the target quantity is the unrounded
`investable / limit_price`. -/
theorem C6_single_candidate (cfg : AllocConfig) (available_krw : ℚ)
    (c : Candidate) (current_prices : List (String × ℚ)) (price : ℚ)
    (hp : alookup current_prices c.symbol = some price)
    (hw : 0 < (if c.signal = "STRONG_BUY"
      then c.total_score * cfg.strong_buy_boost else c.total_score))
    (hmax : 0 < cfg.max_allocation_pct)
    (hord : ¬ available_krw * (1 - cfg.reserve_ratio) < cfg.min_order_krw) :
    allocate cfg available_krw [c] current_prices
      = [{ symbol := c.symbol, score := c.total_score, signal := c.signal,
           weight := 1,
           allocation_amount := roundQ (available_krw * (1 - cfg.reserve_ratio)),
           limit_price := roundQ (price * (1 - cfg.limit_discount_pct)),
           target_quantity := available_krw * (1 - cfg.reserve_ratio)
             / (price * (1 - cfg.limit_discount_pct)) }] := by
  set w := (if c.signal = "STRONG_BUY"
    then c.total_score * cfg.strong_buy_boost else c.total_score) with hwdef
  have hraw : raw_weights cfg [c] current_prices = [(c.symbol, w)] := by
    simp only [raw_weights, List.foldl_cons, List.foldl_nil, hp]
    rw [← hwdef]
    rfl
  have hne : ([(c.symbol, w)] : List (String × ℚ)) ≠ [] := by simp
  have hclamped : clamped_weights cfg [(c.symbol, w)] = [(c.symbol, 1)] := by
    unfold clamped_weights normalized_weights clamp_pct renormalize
    simp only [List.map_cons, List.map_nil, List.sum_cons, List.sum_nil,
      add_zero]
    rw [div_self (ne_of_gt hw)]
    have hvpos : 0 < max cfg.min_allocation_pct (min cfg.max_allocation_pct 1) :=
      lt_of_lt_of_le (lt_min hmax one_pos) (le_max_right _ _)
    rw [if_pos hvpos, div_self (ne_of_gt hvpos)]
  have hentry : alloc_entry cfg (available_krw * (1 - cfg.reserve_ratio))
      [(c.symbol, 1)] current_prices c
      = some { symbol := c.symbol, score := c.total_score, signal := c.signal,
               weight := 1,
               allocation_amount :=
                 roundQ (available_krw * (1 - cfg.reserve_ratio)),
               limit_price := roundQ (price * (1 - cfg.limit_discount_pct)),
               target_quantity := available_krw * (1 - cfg.reserve_ratio)
                 / (price * (1 - cfg.limit_discount_pct)) } := by
    have hself : alookup [(c.symbol, (1 : ℚ))] c.symbol = some 1 := by
      simp [alookup]
    unfold alloc_entry
    rw [hself]
    dsimp only
    rw [mul_one, if_neg hord, hp]
  simp only [allocate, List.isEmpty_cons, Bool.false_eq_true, if_false,
    if_neg hord, hraw, if_neg hne, hclamped, List.filterMap_cons, hentry,
    List.filterMap_nil, List.mergeSort_singleton]

/-- C6 witness: the amended statement at a concrete call — default
configuration, available 10 000 (investable 9 000, a whole number), one
BUY candidate at price 100: weight 1 and the full investable in the
single allocation. -/
theorem C6_single_candidate_witness :
    allocate {} 10000 [⟨"BTC", 80, "BUY"⟩] [("BTC", 100)]
      = [{ symbol := "BTC", score := 80, signal := "BUY", weight := 1,
           allocation_amount := roundQ (10000 * (1 - ({} : AllocConfig).reserve_ratio)),
           limit_price := roundQ ((100 : ℚ) * (1 - ({} : AllocConfig).limit_discount_pct)),
           target_quantity := 10000 * (1 - ({} : AllocConfig).reserve_ratio)
             / ((100 : ℚ) * (1 - ({} : AllocConfig).limit_discount_pct)) }] :=
  C6_single_candidate {} 10000 ⟨"BTC", 80, "BUY"⟩ [("BTC", 100)] 100
    (by simp [alookup]) (by rw [if_neg (by decide)]; norm_num)
    (by norm_num) (by norm_num)

end AtsOKX
